import Mathlib

/-!
Verification development for the ChaosDefense client and configuration layer.

The repository ships the React/Konva client together with the JSON
configuration (status-effect catalog, tower/enemy catalogs, upgrade trees).
The combat engine itself (effect application, stat resolution, the upgrade
interpreter and targeting) runs in an external backend that is not part of
the repository, so those operations are modelled here from the specification,
while the configuration documents and the client code (`gameStore.ts`,
`UpgradePanel.tsx`) are embedded directly from the source.
Numbers are modelled as rationals.
-/

namespace ChaosDefense

/-! ## Status-effect catalog (from the status-effect config JSON) -/

inductive EffectType where
  | stat_modifier
  | damage_over_time
  | heal_over_time
  | stat_debuff
  | stat_buff
deriving DecidableEq, Repr

inductive Stacking where
  | refresh
  | stack_intensity
  | stack_potency
deriving DecidableEq, Repr

structure StatusEffectDefinition where
  id : String
  type : EffectType
  stacking : Stacking
  stat : Option String := none
  multiplier : Option ℚ := none
  tick_interval : Option ℚ := none
deriving DecidableEq, Repr

def slow : StatusEffectDefinition :=
  { id := "slow", type := .stat_modifier, stacking := .refresh, stat := some "speed" }

def stun : StatusEffectDefinition :=
  { id := "stun", type := .stat_modifier, stacking := .refresh,
    stat := some "speed", multiplier := some 0 }

def poison : StatusEffectDefinition :=
  { id := "poison", type := .damage_over_time, stacking := .stack_intensity,
    tick_interval := some 0.5 }

def fire : StatusEffectDefinition :=
  { id := "fire", type := .damage_over_time, stacking := .refresh,
    tick_interval := some 0.5 }

def bleed : StatusEffectDefinition :=
  { id := "bleed", type := .damage_over_time, stacking := .stack_intensity,
    tick_interval := some 1 }

def armor_break : StatusEffectDefinition :=
  { id := "armor_break", type := .stat_debuff, stacking := .stack_potency,
    stat := some "armor" }

def vulnerability : StatusEffectDefinition :=
  { id := "vulnerability", type := .stat_modifier, stacking := .refresh,
    stat := some "damage_taken_multiplier" }

def elemental_vulnerability : StatusEffectDefinition :=
  { id := "elemental_vulnerability", type := .stat_modifier, stacking := .refresh,
    stat := some "damage_taken_multiplier" }

def damage_boost : StatusEffectDefinition :=
  { id := "damage_boost", type := .stat_modifier, stacking := .refresh,
    stat := some "damage" }

def range_boost : StatusEffectDefinition :=
  { id := "range_boost", type := .stat_modifier, stacking := .refresh,
    stat := some "range" }

def fire_rate_boost : StatusEffectDefinition :=
  { id := "fire_rate_boost", type := .stat_modifier, stacking := .refresh,
    stat := some "fire_rate" }

def effect_potency_boost : StatusEffectDefinition :=
  { id := "effect_potency_boost", type := .stat_modifier, stacking := .refresh,
    stat := some "effect_potency_multiplier" }

def aura_size_boost : StatusEffectDefinition :=
  { id := "aura_size_boost", type := .stat_modifier, stacking := .refresh,
    stat := some "aura_size_multiplier" }

def regeneration : StatusEffectDefinition :=
  { id := "regeneration", type := .heal_over_time, stacking := .stack_intensity,
    tick_interval := some 1 }

def armor_boost : StatusEffectDefinition :=
  { id := "armor_boost", type := .stat_buff, stacking := .stack_potency,
    stat := some "armor" }

def statusEffects : List StatusEffectDefinition :=
  [slow, stun, poison, fire, bleed, armor_break, vulnerability, elemental_vulnerability,
   damage_boost, range_boost, fire_rate_boost, effect_potency_boost, aura_size_boost,
   regeneration, armor_boost]

/-! ## Active effect instances and effect application -/

structure ActiveEffectInstance where
  effect_id : String
  potency : ℚ
  remaining_duration : ℚ
deriving DecidableEq, Repr

structure Target where
  immunities : List String
  effects : List ActiveEffectInstance
deriving DecidableEq, Repr

/-- Modelled from the spec: the Status Effect Registry combination algorithm
(immunity check first, then dispatch on the stacking policy: refresh
overwrites potency and resets duration of the existing instance, otherwise
creates one; stack_intensity always creates a new instance; stack_potency
adds potency onto the existing instance and takes the max duration). The
engine implementing it is in the external backend, absent from this
repository. -/
def applyEffect (e : StatusEffectDefinition) (p d : ℚ) (T : Target) : Target :=
  if e.id ∈ T.immunities then T
  else
    match e.stacking with
    | .refresh =>
        if T.effects.any (fun i => i.effect_id == e.id) then
          { T with effects := T.effects.map (fun i =>
              if i.effect_id == e.id then
                { i with potency := p, remaining_duration := d }
              else i) }
        else
          { T with effects := T.effects ++ [⟨e.id, p, d⟩] }
    | .stack_intensity =>
        { T with effects := T.effects ++ [⟨e.id, p, d⟩] }
    | .stack_potency =>
        if T.effects.any (fun i => i.effect_id == e.id) then
          { T with effects := T.effects.map (fun i =>
              if i.effect_id == e.id then
                { i with potency := i.potency + p,
                         remaining_duration := max i.remaining_duration d }
              else i) }
        else
          { T with effects := T.effects ++ [⟨e.id, p, d⟩] }

/-- Apply one effect definition repeatedly, with a potency/duration pair per
application, in order. -/
def applyEffectSeq (e : StatusEffectDefinition) (apps : List (ℚ × ℚ)) (T : Target) : Target :=
  apps.foldl (fun acc pd => applyEffect e pd.1 pd.2 acc) T

/-- Modelled from the spec: the effective DOT/HOT rate on a target is the sum
of all active instances of the effect. -/
def dotRate (effectId : String) (T : Target) : ℚ :=
  ((T.effects.filter (fun i => i.effect_id == effectId)).map (fun i => i.potency)).sum

/-! ## Enemy immunity data (from the enemy and boss config JSON) -/

structure EnemyBaseStats where
  hp : ℚ
  speed : ℚ
  bounty : ℚ
  damage : ℚ
  armor : ℚ
  immunities : List String := []
deriving DecidableEq, Repr

def guardian : EnemyBaseStats :=
  { hp := 150, speed := 60, bounty := 25, damage := 3, armor := 30,
    immunities := ["slow", "stun"] }

def hyperion_vanguard : EnemyBaseStats :=
  { hp := 800, speed := 50, bounty := 500, damage := 20, armor := 35,
    immunities := ["slow", "stun"] }

/-- A fresh combat target for an enemy spawned from a config entry: its
immunities come from the config, no active effects yet. -/
def mkTarget (stats : EnemyBaseStats) : Target :=
  { immunities := stats.immunities, effects := [] }

/-! ## Basic lemmas about effect application -/

lemma applyEffect_immunities (e : StatusEffectDefinition) (p d : ℚ) (T : Target) :
    (applyEffect e p d T).immunities = T.immunities := by
  unfold applyEffect
  split
  · rfl
  · split <;> first | rfl | (split <;> rfl)

lemma applyEffect_not_immune (e : StatusEffectDefinition) (p d : ℚ) (T : Target)
    (him : e.id ∉ T.immunities) (hs : e.stacking = .stack_intensity) :
    applyEffect e p d T = { T with effects := T.effects ++ [⟨e.id, p, d⟩] } := by
  unfold applyEffect
  rw [if_neg him, hs]

lemma filter_map_replace (eid : String) (p d : ℚ) (l : List ActiveEffectInstance)
    (hlen : (l.filter (fun i => i.effect_id == eid)).length ≤ 1)
    (hany : l.any (fun i => i.effect_id == eid) = true) :
    ((l.map (fun i =>
        if i.effect_id == eid then { i with potency := p, remaining_duration := d }
        else i)).filter (fun i => i.effect_id == eid)) = [⟨eid, p, d⟩] := by
  have hpres : ∀ i : ActiveEffectInstance,
      ((if i.effect_id == eid then
          ({ i with potency := p, remaining_duration := d } : ActiveEffectInstance)
        else i).effect_id == eid) = (i.effect_id == eid) := by
    intro i
    by_cases h : i.effect_id == eid <;> simp [h]
  rw [List.filter_map]
  have hcomp : ((fun i : ActiveEffectInstance => i.effect_id == eid) ∘
      (fun i : ActiveEffectInstance =>
        if i.effect_id == eid then { i with potency := p, remaining_duration := d }
        else i)) = fun i : ActiveEffectInstance => i.effect_id == eid := by
    funext i
    exact hpres i
  rw [hcomp]
  obtain ⟨x, hx, hpx⟩ := List.any_eq_true.mp hany
  have hne : l.filter (fun i => i.effect_id == eid) ≠ [] := by
    intro hnil
    have := (List.mem_filter (p := fun i => i.effect_id == eid)).mpr ⟨hx, hpx⟩
    rw [hnil] at this
    exact List.not_mem_nil x this
  have hlen1 : (l.filter (fun i => i.effect_id == eid)).length = 1 := by
    have := List.length_pos.mpr hne
    omega
  obtain ⟨a, ha⟩ := List.length_eq_one.mp hlen1
  have hamem : a ∈ l.filter (fun i => i.effect_id == eid) := by
    rw [ha]; exact List.mem_singleton_self a
  have haid : a.effect_id = eid := by
    have := (List.mem_filter.mp hamem).2
    exact beq_iff_eq.mp this
  rw [ha]
  simp only [List.map_cons, List.map_nil]
  rw [if_pos (beq_iff_eq.mpr haid)]
  congr 1
  simp [haid]

/-- C1: for a status effect whose definition has stacking = refresh (as the
config declares for slow, fire, vulnerability), applying it with potency p
and duration d to a non-immune target that carries at most one instance of
the effect leaves exactly one ActiveEffectInstance for that effect id, with
potency p (overwritten) and remaining_duration d (reset); in particular a
target without an instance gets exactly one new instance. -/
theorem refresh_stacking_single_instance (e : StatusEffectDefinition) (p d : ℚ) (T : Target)
    (hs : e.stacking = .refresh) (him : e.id ∉ T.immunities)
    (hinv : (T.effects.filter (fun i => i.effect_id == e.id)).length ≤ 1) :
    (applyEffect e p d T).effects.filter (fun i => i.effect_id == e.id)
      = [⟨e.id, p, d⟩] := by
  unfold applyEffect
  rw [if_neg him, hs]
  by_cases hany : T.effects.any (fun i => i.effect_id == e.id) = true
  · simp only [hany, if_true]
    exact filter_map_replace e.id p d T.effects hinv hany
  · simp only [hany, if_false, Bool.false_eq_true]
    rw [List.filter_append]
    have hnil : T.effects.filter (fun i => i.effect_id == e.id) = [] := by
      rw [List.filter_eq_nil_iff]
      intro a hmem hpa
      exact hany (List.any_eq_true.mpr ⟨a, hmem, hpa⟩)
    rw [hnil]
    simp

/-- Witness for C1 at the config's slow effect: a target already slowed at
potency 0.2 for 2s, re-slowed at potency 0.5 for 1s, ends with exactly the
single instance (slow, 0.5, 1). -/
theorem refresh_stacking_single_instance_witness :
    slow.stacking = .refresh ∧
    slow.id ∉ (Target.mk [] [⟨"slow", 0.2, 2⟩]).immunities ∧
    (applyEffect slow 0.5 1 (Target.mk [] [⟨"slow", 0.2, 2⟩])).effects.filter
        (fun i => i.effect_id == slow.id) = [⟨slow.id, 0.5, 1⟩] :=
  ⟨rfl, by decide,
    refresh_stacking_single_instance slow 0.5 1 (Target.mk [] [⟨"slow", 0.2, 2⟩])
      rfl (by decide) (by decide)⟩

/-- C2: for a status effect whose definition has stacking = stack_intensity
(as the config declares for poison and bleed), each application to a
non-immune target appends a fresh independent instance — N applications add
exactly the N applied (potency, duration) instances — and the combined
DOT rate on the target grows by the sum of the applied potencies. -/
theorem stack_intensity_accumulates (e : StatusEffectDefinition)
    (apps : List (ℚ × ℚ)) (T : Target)
    (hs : e.stacking = .stack_intensity) (him : e.id ∉ T.immunities) :
    ((applyEffectSeq e apps T).effects.filter (fun i => i.effect_id == e.id)
        = T.effects.filter (fun i => i.effect_id == e.id)
          ++ apps.map (fun pd => ⟨e.id, pd.1, pd.2⟩)) ∧
    dotRate e.id (applyEffectSeq e apps T)
        = dotRate e.id T + (apps.map Prod.fst).sum := by
  induction apps generalizing T with
  | nil =>
      constructor
      · simp [applyEffectSeq]
      · simp [applyEffectSeq]
  | cons pd rest ih =>
      have hstep : applyEffect e pd.1 pd.2 T
          = { T with effects := T.effects ++ [⟨e.id, pd.1, pd.2⟩] } :=
        applyEffect_not_immune e pd.1 pd.2 T him hs
      have hseq : applyEffectSeq e (pd :: rest) T
          = applyEffectSeq e rest (applyEffect e pd.1 pd.2 T) := rfl
      have him2 : e.id ∉ (applyEffect e pd.1 pd.2 T).immunities := by
        rw [applyEffect_immunities]; exact him
      obtain ⟨ihfilter, ihrate⟩ := ih (applyEffect e pd.1 pd.2 T) him2
      constructor
      · rw [hseq, ihfilter, hstep]
        simp only [List.filter_append, List.map_cons]
        have hsingle : List.filter (fun i => i.effect_id == e.id)
            [(⟨e.id, pd.1, pd.2⟩ : ActiveEffectInstance)]
            = [⟨e.id, pd.1, pd.2⟩] := by
          simp [List.filter]
        rw [hsingle, List.append_assoc]
        simp
      · rw [hseq, ihrate, hstep]
        unfold dotRate
        simp only [List.filter_append, List.map_append, List.sum_append, List.map_cons,
          List.sum_cons]
        have hsingle : List.filter (fun i => i.effect_id == e.id)
            [(⟨e.id, pd.1, pd.2⟩ : ActiveEffectInstance)]
            = [⟨e.id, pd.1, pd.2⟩] := by
          simp [List.filter]
        rw [hsingle]
        simp
        ring

/-- Witness for C2 at the config's poison effect: two applications to a fresh
target yield exactly the two applied instances, and a DOT rate of 3. -/
theorem stack_intensity_accumulates_witness :
    poison.stacking = .stack_intensity ∧
    poison.id ∉ (Target.mk [] []).immunities ∧
    ((applyEffectSeq poison [(1, 3), (2, 4)] (Target.mk [] [])).effects.filter
        (fun i => i.effect_id == poison.id)
        = [⟨poison.id, 1, 3⟩, ⟨poison.id, 2, 4⟩]) ∧
    dotRate poison.id (applyEffectSeq poison [(1, 3), (2, 4)] (Target.mk [] [])) = 3 := by
  have h := stack_intensity_accumulates poison [(1, 3), (2, 4)] (Target.mk [] [])
    rfl (by decide)
  refine ⟨rfl, by decide, ?_, ?_⟩
  · rw [h.1]; rfl
  · rw [h.2]
    simp [dotRate]
    norm_num

/-- C3: an effect whose id is among the target's immunities is silently
dropped before any stacking logic: any number of applications, with any
potencies and durations, leaves the target completely unchanged and creates
no ActiveEffectInstance. -/
theorem immunity_noop (e : StatusEffectDefinition) (T : Target)
    (him : e.id ∈ T.immunities) :
    ∀ apps : List (ℚ × ℚ), applyEffectSeq e apps T = T := by
  intro apps
  induction apps with
  | nil => rfl
  | cons pd rest ih =>
      have hstep : applyEffect e pd.1 pd.2 T = T := by
        unfold applyEffect
        rw [if_pos him]
      have : applyEffectSeq e (pd :: rest) T
          = applyEffectSeq e rest (applyEffect e pd.1 pd.2 T) := rfl
      rw [this, hstep, ih]

/-- Witness for C3 at the config's guardian enemy, which declares immunities
slow and stun: three slow applications leave a fresh guardian target
unchanged. -/
theorem immunity_noop_witness :
    slow.id ∈ (mkTarget guardian).immunities ∧
    applyEffectSeq slow [(0.5, 1), (0.5, 1), (0.8, 2)] (mkTarget guardian)
      = mkTarget guardian :=
  ⟨by decide, immunity_noop slow (mkTarget guardian) (by decide)
      [(0.5, 1), (0.5, 1), (0.8, 2)]⟩

/-! ## Stat resolution layer -/

def lookupEffect (reg : List StatusEffectDefinition) (eid : String) :
    Option StatusEffectDefinition :=
  reg.find? (fun e => e.id == eid)

/-- Whether an active instance contributes additively (stat_debuff or
stat_buff against the named stat) under a registry. -/
def isAdditiveFor (reg : List StatusEffectDefinition) (s : String)
    (i : ActiveEffectInstance) : Bool :=
  match lookupEffect reg i.effect_id with
  | some e => (e.type == .stat_debuff || e.type == .stat_buff) && e.stat == some s
  | none => false

/-- Whether an active instance contributes multiplicatively (stat_modifier
against the named stat) under a registry. -/
def isMultiplicativeFor (reg : List StatusEffectDefinition) (s : String)
    (i : ActiveEffectInstance) : Bool :=
  match lookupEffect reg i.effect_id with
  | some e => e.type == .stat_modifier && e.stat == some s
  | none => false

/-- Modelled from the spec: the resulting speed, fire_rate and armor are
clamped to be nonnegative; other stats are left as computed. -/
def clampStat (s : String) (v : ℚ) : ℚ :=
  if s == "speed" || s == "fire_rate" || s == "armor" then max 0 v else v

/-- Modelled from the spec: the Stat Resolution Layer computes one effective
stat by starting from the upgraded base value, folding in all additive
stat_debuff/stat_buff potencies, then folding in all multiplicative
stat_modifier potencies against the already-debuffed value, and finally
clamping. It is a pure function of the definition and the instance list
(the backend implementing it is absent from this repository). -/
def resolveStat (reg : List StatusEffectDefinition) (s : String) (base : ℚ)
    (insts : List ActiveEffectInstance) : ℚ :=
  let afterAdd := insts.foldl
    (fun acc i => if isAdditiveFor reg s i then acc + i.potency else acc) base
  let afterMult := insts.foldl
    (fun acc i => if isMultiplicativeFor reg s i then acc * i.potency else acc) afterAdd
  clampStat s afterMult

structure StatBlock where
  speed : ℚ
  damage : ℚ
  fire_rate : ℚ
  armor : ℚ
  range : ℚ
deriving DecidableEq, Repr

/-- Modelled from the spec: resolveEffectiveStats resolves every stat of the
block from the upgraded definition and the current active instances; it
reads the instances and never mutates them (its result is only a StatBlock). -/
def resolveEffectiveStats (reg : List StatusEffectDefinition) (base : StatBlock)
    (insts : List ActiveEffectInstance) : StatBlock :=
  { speed := resolveStat reg "speed" base.speed insts
    damage := resolveStat reg "damage" base.damage insts
    fire_rate := resolveStat reg "fire_rate" base.fire_rate insts
    armor := resolveStat reg "armor" base.armor insts
    range := resolveStat reg "range" base.range insts }

lemma foldl_add_filter (f : ActiveEffectInstance → Bool)
    (l : List ActiveEffectInstance) :
    ∀ v : ℚ, l.foldl (fun acc i => if f i then acc + i.potency else acc) v
      = v + ((l.filter f).map (fun i => i.potency)).sum := by
  induction l with
  | nil => intro v; simp
  | cons h t ih =>
      intro v
      by_cases hf : f h
      · simp only [List.foldl_cons, hf, if_true, List.filter_cons, List.map_cons,
          List.sum_cons, ih]
        ring
      · simp only [List.foldl_cons, hf, if_false, List.filter_cons, ih]
        simp [hf]

lemma foldl_mul_filter (f : ActiveEffectInstance → Bool)
    (l : List ActiveEffectInstance) :
    ∀ v : ℚ, l.foldl (fun acc i => if f i then acc * i.potency else acc) v
      = v * ((l.filter f).map (fun i => i.potency)).prod := by
  induction l with
  | nil => intro v; simp
  | cons h t ih =>
      intro v
      by_cases hf : f h
      · simp only [List.foldl_cons, hf, if_true, List.filter_cons, List.map_cons,
          List.prod_cons, ih]
        ring
      · simp only [List.foldl_cons, hf, if_false, List.filter_cons, ih]
        simp [hf]

/-- C4: resolution of every stat follows the fixed order — the additive
stat_debuff/stat_buff potencies for the stat are summed onto the base value
first, then all multiplicative stat_modifier potencies multiply the
already-debuffed value (simultaneous multipliers combine by multiplication,
not addition), and the result is clamped; in particular the resolved speed,
fire_rate and armor of the stat block are always nonnegative. The resolver
is a pure reader of the instance list. -/
theorem resolveStat_fixed_order (reg : List StatusEffectDefinition) (b : StatBlock)
    (s : String) (base : ℚ) (insts : List ActiveEffectInstance) :
    (resolveStat reg s base insts
      = clampStat s
          ((base + ((insts.filter (isAdditiveFor reg s)).map (fun i => i.potency)).sum)
            * ((insts.filter (isMultiplicativeFor reg s)).map (fun i => i.potency)).prod)) ∧
    0 ≤ (resolveEffectiveStats reg b insts).speed ∧
    0 ≤ (resolveEffectiveStats reg b insts).fire_rate ∧
    0 ≤ (resolveEffectiveStats reg b insts).armor := by
  have hmain : ∀ (s2 : String) (base2 : ℚ),
      resolveStat reg s2 base2 insts
        = clampStat s2
            ((base2 + ((insts.filter (isAdditiveFor reg s2)).map (fun i => i.potency)).sum)
              * ((insts.filter (isMultiplicativeFor reg s2)).map (fun i => i.potency)).prod) := by
    intro s2 base2
    simp only [resolveStat]
    rw [foldl_add_filter, foldl_mul_filter]
  have hclamped : ∀ (s2 : String) (base2 : ℚ),
      (s2 == "speed" || s2 == "fire_rate" || s2 == "armor") = true →
      0 ≤ resolveStat reg s2 base2 insts := by
    intro s2 base2 hs2
    rw [hmain]
    unfold clampStat
    rw [if_pos hs2]
    exact le_max_left 0 _
  refine ⟨hmain s base, ?_, ?_, ?_⟩
  · exact hclamped "speed" b.speed rfl
  · exact hclamped "fire_rate" b.fire_rate rfl
  · exact hclamped "armor" b.armor rfl

/-! ## Entity definition documents and the modify_nested interpreter -/

inductive JValue where
  | num (q : ℚ)
  | str (s : String)
  | jbool (b : Bool)
  | obj (fields : List (String × JValue))
  | arr (items : List JValue)

inductive PathSeg where
  | field (name : String)
  | index (i : Nat)
deriving DecidableEq, Repr

inductive NestedOp where
  | add (amount : ℚ)
  | multiply (amount : ℚ)
  | set (amount : JValue)
  | add_effect (amount : List (String × JValue))
  | add_aura (amount : JValue)

inductive AppError where
  | missingPath
  | typeMismatch
deriving DecidableEq, Repr

def lookupField (k : String) : List (String × JValue) → Option JValue
  | [] => none
  | (k2, v) :: rest => if k2 == k then some v else lookupField k rest

def setField (k : String) (c : JValue) : List (String × JValue) → List (String × JValue)
  | [] => []
  | (k2, v) :: rest => if k2 == k then (k2, c) :: rest else (k2, v) :: setField k c rest

/-- Pure lookup of a dotted/bracket path inside a definition document, with
no creation: none when the addressed field does not pre-exist. -/
def resolvePath : List PathSeg → JValue → Option JValue
  | [], v => some v
  | .field k :: rest, .obj fs =>
      match lookupField k fs with
      | some c => resolvePath rest c
      | none => none
  | .index i :: rest, .arr items =>
      match items[i]? with
      | some c => resolvePath rest c
      | none => none
  | _ :: _, _ => none

/-- Apply a modify_nested operation at the addressed node itself. -/
def applyHere (v : JValue) : NestedOp → Except AppError JValue
  | .add a =>
      match v with
      | .num n => .ok (.num (n + a))
      | _ => .error .typeMismatch
  | .multiply a =>
      match v with
      | .num n => .ok (.num (n * a))
      | _ => .error .typeMismatch
  | .set x => .ok x
  | .add_effect entries =>
      match v with
      | .obj fs => .ok (.obj (fs ++ entries))
      | _ => .error .typeMismatch
  | .add_aura a =>
      match v with
      | .arr items => .ok (.arr (items ++ [a]))
      | _ => .error .typeMismatch

/-- Whether a modify_nested operation is allowed to create missing nodes
along its path (add_effect, add_aura, set), as opposed to add and multiply
which must fail fast on an absent field. -/
def opCreates : NestedOp → Bool
  | .add _ => false
  | .multiply _ => false
  | .set _ => true
  | .add_effect _ => true
  | .add_aura _ => true

/-- The node freshly created for a missing path segment: an intermediate
mapping node, except that the final node of an add_aura is an empty list to
append into. -/
def freshNode (rest : List PathSeg) (op : NestedOp) : JValue :=
  match rest, op with
  | [], .add_aura _ => .arr []
  | _, _ => .obj []

/-- Modelled from the spec: the modify_nested interpreter. Dotted keys and
zero-based bracket array indices are traversed; missing mapping fields are
created only for creating operations (add_effect, add_aura, set), while add
and multiply fail fast with MissingPathError when the addressed field does
not pre-exist. The interpreter itself lives in the external backend, absent
from this repository. -/
def modifyNested : List PathSeg → JValue → NestedOp → Except AppError JValue
  | [], v, op => applyHere v op
  | .field k :: rest, .obj fs, op =>
      match lookupField k fs with
      | some c => (modifyNested rest c op).map (fun c2 => .obj (setField k c2 fs))
      | none =>
          if opCreates op then
            (modifyNested rest (freshNode rest op) op).map
              (fun c2 => .obj (fs ++ [(k, c2)]))
          else .error .missingPath
  | .index i :: rest, .arr items, op =>
      match items[i]? with
      | some c => (modifyNested rest c op).map (fun c2 => .arr (items.set i c2))
      | none => .error .missingPath
  | _ :: _, _, _ => .error .missingPath

/-- A fresh subtree can be grown below a missing field only through plain
mapping keys, never through an array index. -/
def creatableTail : List PathSeg → Bool
  | [] => true
  | .field _ :: rest => creatableTail rest
  | .index _ :: _ => false

/-- Whether traversal of the path meets only existing mapping/array nodes
until (possibly) a missing mapping field from which a fresh all-field tail
could be created. -/
def creatable : List PathSeg → JValue → Bool
  | [], _ => true
  | .field k :: rest, .obj fs =>
      match lookupField k fs with
      | some c => creatable rest c
      | none => creatableTail rest
  | .index i :: rest, .arr items =>
      match items[i]? with
      | some c => creatable rest c
      | none => false
  | _ :: _, _ => false

lemma modifyNested_no_create (op : NestedOp) (hop : opCreates op = false) :
    ∀ (path : List PathSeg) (v : JValue), resolvePath path v = none →
      modifyNested path v op = .error .missingPath := by
  intro path
  induction path with
  | nil => intro v hmiss; simp [resolvePath] at hmiss
  | cons seg rest ih =>
      intro v hmiss
      cases seg with
      | field k =>
          cases v with
          | obj fs =>
              cases hl : lookupField k fs with
              | some c =>
                  have hm2 : resolvePath rest c = none := by
                    simpa [resolvePath, hl] using hmiss
                  simp [modifyNested, hl, ih c hm2, Except.map]
              | none => simp [modifyNested, hl, hop]
          | num q => simp [modifyNested]
          | str s => simp [modifyNested]
          | jbool b => simp [modifyNested]
          | arr items => simp [modifyNested]
      | index i =>
          cases v with
          | arr items =>
              cases hl : items[i]? with
              | some c =>
                  have hm2 : resolvePath rest c = none := by
                    simpa [resolvePath, hl] using hmiss
                  simp [modifyNested, hl, ih c hm2, Except.map]
              | none => simp [modifyNested, hl]
          | num q => simp [modifyNested]
          | str s => simp [modifyNested]
          | jbool b => simp [modifyNested]
          | obj fs => simp [modifyNested]

lemma modifyNested_creates_tail (op : NestedOp) (hop : opCreates op = true) :
    ∀ rest : List PathSeg, creatableTail rest = true →
      ∃ r, modifyNested rest (freshNode rest op) op = .ok r := by
  intro rest
  induction rest with
  | nil =>
      intro _
      cases op with
      | add a => simp [opCreates] at hop
      | multiply a => simp [opCreates] at hop
      | set x => exact ⟨x, rfl⟩
      | add_effect es => exact ⟨.obj es, by simp [modifyNested, freshNode, applyHere]⟩
      | add_aura a => exact ⟨.arr [a], by simp [modifyNested, freshNode, applyHere]⟩
  | cons seg rest2 ih =>
      intro htail
      cases seg with
      | field k =>
          have htail2 : creatableTail rest2 = true := by simpa [creatableTail] using htail
          obtain ⟨r, hr⟩ := ih htail2
          refine ⟨.obj [(k, r)], ?_⟩
          have hfresh : freshNode (PathSeg.field k :: rest2) op = .obj [] := by
            cases op <;> rfl
          rw [hfresh]
          simp [modifyNested, lookupField, hop, hr, Except.map]
      | index i => simp [creatableTail] at htail

lemma modifyNested_creates (op : NestedOp) (hop : opCreates op = true) :
    ∀ (path : List PathSeg) (v : JValue), creatable path v = true →
      resolvePath path v = none →
      ∃ r, modifyNested path v op = .ok r := by
  intro path
  induction path with
  | nil => intro v _ hmiss; simp [resolvePath] at hmiss
  | cons seg rest ih =>
      intro v hcreat hmiss
      cases seg with
      | field k =>
          cases v with
          | obj fs =>
              cases hl : lookupField k fs with
              | some c =>
                  have hc2 : creatable rest c = true := by
                    simpa [creatable, hl] using hcreat
                  have hm2 : resolvePath rest c = none := by
                    simpa [resolvePath, hl] using hmiss
                  obtain ⟨r, hr⟩ := ih c hc2 hm2
                  exact ⟨.obj (setField k r fs), by simp [modifyNested, hl, hr, Except.map]⟩
              | none =>
                  have htail : creatableTail rest = true := by
                    simpa [creatable, hl] using hcreat
                  obtain ⟨r, hr⟩ := modifyNested_creates_tail op hop rest htail
                  exact ⟨.obj (fs ++ [(k, r)]), by simp [modifyNested, hl, hop, hr, Except.map]⟩
          | num q => simp [creatable] at hcreat
          | str s => simp [creatable] at hcreat
          | jbool b => simp [creatable] at hcreat
          | arr items => simp [creatable] at hcreat
      | index i =>
          cases v with
          | arr items =>
              cases hl : items[i]? with
              | some c =>
                  have hc2 : creatable rest c = true := by
                    simpa [creatable, hl] using hcreat
                  have hm2 : resolvePath rest c = none := by
                    simpa [resolvePath, hl] using hmiss
                  obtain ⟨r, hr⟩ := ih c hc2 hm2
                  exact ⟨.arr (items.set i r), by simp [modifyNested, hl, hr, Except.map]⟩
              | none => simp [creatable, hl] at hcreat
          | num q => simp [creatable] at hcreat
          | str s => simp [creatable] at hcreat
          | jbool b => simp [creatable] at hcreat
          | obj fs => simp [creatable] at hcreat

/-- C5: when the field addressed by a modify_nested path does not pre-exist
in the entity definition, the add and multiply operations fail with
MissingPathError (fatal, never a silent default), while set, add_effect and
add_aura succeed by creating the missing intermediate mapping nodes
(whenever the miss happens at a mapping field whose remaining path is plain
keys). -/
theorem modify_nested_missing_field_discipline (path : List PathSeg) (v : JValue)
    (a : ℚ) (x w : JValue) (es : List (String × JValue))
    (hmiss : resolvePath path v = none) :
    modifyNested path v (.add a) = .error .missingPath ∧
    modifyNested path v (.multiply a) = .error .missingPath ∧
    (creatable path v = true →
      (∃ r, modifyNested path v (.set x) = .ok r) ∧
      (∃ r, modifyNested path v (.add_effect es) = .ok r) ∧
      (∃ r, modifyNested path v (.add_aura w) = .ok r)) := by
  refine ⟨modifyNested_no_create (.add a) rfl path v hmiss,
    modifyNested_no_create (.multiply a) rfl path v hmiss, ?_⟩
  intro hcreat
  exact ⟨modifyNested_creates (.set x) rfl path v hcreat hmiss,
    modifyNested_creates (.add_effect es) rfl path v hcreat hmiss,
    modifyNested_creates (.add_aura w) rfl path v hcreat hmiss⟩

/-- Witness for C5 at a definition shaped like a tower without a
blast_radius field: add 5 on attack.data.blast_radius fails with
MissingPathError while set 50 succeeds there. -/
theorem modify_nested_missing_field_discipline_witness :
    (modifyNested [.field "attack", .field "data", .field "blast_radius"]
        (.obj [("attack", .obj [("data", .obj [("damage", .num 10)])])])
        (.add 5) = .error .missingPath) ∧
    (∃ r, modifyNested [.field "attack", .field "data", .field "blast_radius"]
        (.obj [("attack", .obj [("data", .obj [("damage", .num 10)])])])
        (.set (.num 50)) = .ok r) := by
  have h := modify_nested_missing_field_discipline
    [.field "attack", .field "data", .field "blast_radius"]
    (.obj [("attack", .obj [("data", .obj [("damage", .num 10)])])])
    5 (.num 50) (.num 0) [] rfl
  exact ⟨h.1, (h.2.2 rfl).1⟩

/-! ## Upgrade effect interpreter and the curse_weaver upgrade path -/

def attackDataPath (key : String) : List PathSeg :=
  [.field "attack", .field "data", .field key]

inductive UpgradeOp where
  | add_damage (value : ℚ)
  | add_range (value : ℚ)
  | multiply_fire_rate (value : ℚ)
  | set_pierce (value : ℚ)
  | multiply_blast_radius (value : ℚ)
  | add_effect (id : String) (potency duration : ℚ)
  | add_blast_effect (id : String) (potency duration : ℚ)
  | modify_nested (path : List PathSeg) (op : NestedOp)

/-- Modelled from the spec: the Upgrade Effect Interpreter applies one typed
operation to an entity definition document. multiply_blast_radius sets
attack.data.blast_radius to the value when the current one is 0 or absent,
and multiplies it otherwise; add_blast_effect appends to the
attack.data.on_blast_effects list; set_pierce is an absolute set. The
interpreter lives in the external backend, absent from this repository. -/
def applyUpgradeOp : UpgradeOp → JValue → Except AppError JValue
  | .add_damage v, d => modifyNested (attackDataPath "damage") d (.add v)
  | .add_range v, d => modifyNested (attackDataPath "range") d (.add v)
  | .multiply_fire_rate v, d => modifyNested (attackDataPath "fire_rate") d (.multiply v)
  | .set_pierce v, d => modifyNested (attackDataPath "pierce") d (.set (.num v))
  | .multiply_blast_radius v, d =>
      match resolvePath (attackDataPath "blast_radius") d with
      | none => modifyNested (attackDataPath "blast_radius") d (.set (.num v))
      | some (.num r) =>
          if r = 0 then modifyNested (attackDataPath "blast_radius") d (.set (.num v))
          else modifyNested (attackDataPath "blast_radius") d (.set (.num (r * v)))
      | some _ => .error .typeMismatch
  | .add_effect eid p dur, d =>
      modifyNested (attackDataPath "effects") d
        (.add_effect [(eid, .obj [("potency", .num p), ("duration", .num dur)])])
  | .add_blast_effect eid p dur, d =>
      modifyNested (attackDataPath "on_blast_effects") d
        (.add_aura (.obj [("id", .str eid), ("potency", .num p), ("duration", .num dur)]))
  | .modify_nested path op, d => modifyNested path d op

/-- Apply an upgrade's effect list in order, stopping at the first error. -/
def applyUpgradeOps (ops : List UpgradeOp) (d : JValue) : Except AppError JValue :=
  ops.foldlM (fun acc op => applyUpgradeOp op acc) d

/-- The curse_weaver base definition from the tower catalog config: its base
attack has no blast_radius field. -/
def curse_weaver_def : JValue :=
  .obj [("name", .str "Curse Weaver"), ("category", .str "magic"),
        ("cost", .num 130), ("unlock_cost", .num 125),
        ("attack", .obj [("type", .str "standard_projectile"),
          ("data", .obj [("damage", .num 5), ("range", .num 220), ("fire_rate", .num 2),
            ("effects", .obj [("elemental_vulnerability",
              .obj [("potency", .num 1.5), ("duration", .num 5)])])])])]

/-- The effect list of upgrade curse_b3 from the curse_weaver upgrade config:
multiply_blast_radius 50 then an elemental_vulnerability blast effect. -/
def curse_b3_ops : List UpgradeOp :=
  [.multiply_blast_radius 50, .add_blast_effect "elemental_vulnerability" 1.25 3]

/-- The effect list of upgrade curse_b5 from the curse_weaver upgrade config:
set_pierce 2 then multiply_blast_radius 1.5. -/
def curse_b5_ops : List UpgradeOp :=
  [.set_pierce 2, .multiply_blast_radius 1.5]

def blastRadiusOf (d : JValue) : Option JValue :=
  resolvePath (attackDataPath "blast_radius") d

lemma modifyNested_set_resolve :
    ∀ (path : List PathSeg) (v w x : JValue),
      modifyNested path v (.set x) = .ok w → resolvePath path w = some x := by
  intro path
  induction path with
  | nil =>
      intro v w x h
      have hw : x = w := by
        simpa [modifyNested, applyHere] using h
      subst hw
      simp [resolvePath]
  | cons seg rest ih =>
      intro v w x h
      cases seg with
      | field k =>
          cases v with
          | obj fs =>
              cases hl : lookupField k fs with
              | some c =>
                  rw [show modifyNested (PathSeg.field k :: rest) (.obj fs) (.set x)
                      = (modifyNested rest c (.set x)).map
                          (fun c2 => .obj (setField k c2 fs)) by
                    simp [modifyNested, hl]] at h
                  cases hm : modifyNested rest c (.set x) with
                  | error e => rw [hm] at h; simp [Except.map] at h
                  | ok c2 =>
                      rw [hm] at h
                      simp only [Except.map, Except.ok.injEq] at h
                      subst h
                      have hlk : lookupField k (setField k c2 fs) = some c2 := by
                        clear hm ih
                        induction fs with
                        | nil => simp [lookupField] at hl
                        | cons kv rest2 ih2 =>
                            by_cases hk : kv.1 == k
                            · simp [setField, hk, lookupField]
                            · simp only [lookupField, hk] at hl
                              simp [setField, hk, lookupField, ih2 hl]
                      simp [resolvePath, hlk, ih c c2 x hm]
              | none =>
                  rw [show modifyNested (PathSeg.field k :: rest) (.obj fs) (.set x)
                      = (modifyNested rest (freshNode rest (.set x)) (.set x)).map
                          (fun c2 => .obj (fs ++ [(k, c2)])) by
                    simp [modifyNested, hl, opCreates]] at h
                  cases hm : modifyNested rest (freshNode rest (.set x)) (.set x) with
                  | error e => rw [hm] at h; simp [Except.map] at h
                  | ok c2 =>
                      rw [hm] at h
                      simp only [Except.map, Except.ok.injEq] at h
                      subst h
                      have hlk : lookupField k (fs ++ [(k, c2)]) = some c2 := by
                        clear hm ih
                        induction fs with
                        | nil => simp [lookupField]
                        | cons kv rest2 ih2 =>
                            by_cases hk : kv.1 == k
                            · simp [lookupField, hk] at hl
                            · simp only [List.cons_append, lookupField, hk,
                                Bool.false_eq_true, if_false]
                              simp only [lookupField, hk] at hl
                              simp only [Bool.false_eq_true, if_false] at hl
                              exact ih2 hl
                      simp [resolvePath, hlk, ih _ c2 x hm]
          | num q => simp [modifyNested] at h
          | str s => simp [modifyNested] at h
          | jbool b => simp [modifyNested] at h
          | arr items => simp [modifyNested] at h
      | index i =>
          cases v with
          | arr items =>
              cases hl : items[i]? with
              | some c =>
                  rw [show modifyNested (PathSeg.index i :: rest) (.arr items) (.set x)
                      = (modifyNested rest c (.set x)).map
                          (fun c2 => .arr (items.set i c2)) by
                    simp [modifyNested, hl]] at h
                  cases hm : modifyNested rest c (.set x) with
                  | error e => rw [hm] at h; simp [Except.map] at h
                  | ok c2 =>
                      rw [hm] at h
                      simp only [Except.map, Except.ok.injEq] at h
                      subst h
                      have hi : i < items.length := by
                        have := List.getElem?_eq_some_iff.mp hl
                        exact this.1
                      have hget : (items.set i c2)[i]? = some c2 :=
                        List.getElem?_set_eq_of_lt c2 hi
                      simp [resolvePath, hget, ih c c2 x hm]
              | none => simp [modifyNested, hl] at h
          | num q => simp [modifyNested] at h
          | str s => simp [modifyNested] at h
          | jbool b => simp [modifyNested] at h
          | obj fs => simp [modifyNested] at h

lemma modifyNested_set_exists_of_resolves :
    ∀ (path : List PathSeg) (v c x : JValue), resolvePath path v = some c →
      ∃ w, modifyNested path v (.set x) = .ok w := by
  intro path
  induction path with
  | nil => intro v c x _; exact ⟨x, rfl⟩
  | cons seg rest ih =>
      intro v c x h
      cases seg with
      | field k =>
          cases v with
          | obj fs =>
              cases hl : lookupField k fs with
              | some c1 =>
                  have h2 : resolvePath rest c1 = some c := by
                    simpa [resolvePath, hl] using h
                  obtain ⟨w1, hw1⟩ := ih c1 c x h2
                  exact ⟨.obj (setField k w1 fs), by simp [modifyNested, hl, hw1, Except.map]⟩
              | none => simp [resolvePath, hl] at h
          | num q => simp [resolvePath] at h
          | str s => simp [resolvePath] at h
          | jbool b => simp [resolvePath] at h
          | arr items => simp [resolvePath] at h
      | index i =>
          cases v with
          | arr items =>
              cases hl : items[i]? with
              | some c1 =>
                  have h2 : resolvePath rest c1 = some c := by
                    simpa [resolvePath, hl] using h
                  obtain ⟨w1, hw1⟩ := ih c1 c x h2
                  exact ⟨.arr (items.set i w1), by simp [modifyNested, hl, hw1, Except.map]⟩
              | none => simp [resolvePath, hl] at h
          | num q => simp [resolvePath] at h
          | str s => simp [resolvePath] at h
          | jbool b => simp [resolvePath] at h
          | obj fs => simp [resolvePath] at h

/-- C6: multiply_blast_radius with value v sets attack.data.blast_radius to
v when the current blast_radius is absent or 0, and multiplies the existing
nonzero blast_radius by v; concretely, on the curse_weaver base definition
(whose attack has no blast_radius) the curse_b3 effect list yields
blast_radius 50 and the subsequent curse_b5 effect list yields 75. -/
theorem multiply_blast_radius_set_or_multiply (d : JValue) (v r : ℚ) :
    (resolvePath (attackDataPath "blast_radius") d = none →
      creatable (attackDataPath "blast_radius") d = true →
      ∃ d2, applyUpgradeOp (.multiply_blast_radius v) d = .ok d2 ∧
        blastRadiusOf d2 = some (.num v)) ∧
    (resolvePath (attackDataPath "blast_radius") d = some (.num 0) →
      ∃ d2, applyUpgradeOp (.multiply_blast_radius v) d = .ok d2 ∧
        blastRadiusOf d2 = some (.num v)) ∧
    (resolvePath (attackDataPath "blast_radius") d = some (.num r) → r ≠ 0 →
      ∃ d2, applyUpgradeOp (.multiply_blast_radius v) d = .ok d2 ∧
        blastRadiusOf d2 = some (.num (r * v))) ∧
    (∃ d1 d2 q1 q2,
      applyUpgradeOps curse_b3_ops curse_weaver_def = .ok d1 ∧
      blastRadiusOf d1 = some (.num q1) ∧ q1 = 50 ∧
      applyUpgradeOps curse_b5_ops d1 = .ok d2 ∧
      blastRadiusOf d2 = some (.num q2) ∧ q2 = 75) := by
  refine ⟨?_, ?_, ?_, ?_⟩
  · intro hnone hcreat
    obtain ⟨d2, hd2⟩ :=
      modifyNested_creates (.set (.num v)) rfl (attackDataPath "blast_radius") d hcreat hnone
    refine ⟨d2, ?_, ?_⟩
    · simp [applyUpgradeOp, hnone, hd2]
    · exact modifyNested_set_resolve (attackDataPath "blast_radius") d d2 (.num v) hd2
  · intro h0
    obtain ⟨d2, hd2⟩ :=
      modifyNested_set_exists_of_resolves (attackDataPath "blast_radius") d (.num 0)
        (.num v) h0
    refine ⟨d2, ?_, ?_⟩
    · simp [applyUpgradeOp, h0, hd2]
    · exact modifyNested_set_resolve (attackDataPath "blast_radius") d d2 (.num v) hd2
  · intro hr hne
    obtain ⟨d2, hd2⟩ :=
      modifyNested_set_exists_of_resolves (attackDataPath "blast_radius") d (.num r)
        (.num (r * v)) hr
    refine ⟨d2, ?_, ?_⟩
    · simp [applyUpgradeOp, hr, hne, hd2]
    · exact modifyNested_set_resolve (attackDataPath "blast_radius") d d2 (.num (r * v)) hd2
  · exact ⟨_, _, _, _, rfl, rfl, by norm_num, rfl, rfl, by norm_num⟩

/-- Witness for C6: on the curse_weaver base definition the blast_radius is
absent, so multiply_blast_radius 50 sets it to 50; on a document with
blast_radius 30 the same operation with value 1.5 multiplies to 45. -/
theorem multiply_blast_radius_set_or_multiply_witness :
    (∃ d2, applyUpgradeOp (.multiply_blast_radius 50) curse_weaver_def = .ok d2 ∧
      blastRadiusOf d2 = some (.num 50)) ∧
    (∃ d2, applyUpgradeOp (.multiply_blast_radius 1.5)
        (.obj [("attack", .obj [("data", .obj [("blast_radius", .num 30)])])]) = .ok d2 ∧
      blastRadiusOf d2 = some (.num (30 * 1.5))) :=
  ⟨(multiply_blast_radius_set_or_multiply curse_weaver_def 50 0).1 rfl rfl,
   (multiply_blast_radius_set_or_multiply
      (.obj [("attack", .obj [("data", .obj [("blast_radius", .num 30)])])]) 1.5 30).2.2.1
      rfl (by norm_num)⟩

/-! ## The archmage aura round-trip (from the tower catalog and the
archmage upgrade config) -/

/-- The archmage base definition from the tower catalog config: a single
TOWER-targeted aura of range 100 carrying effect_potency_boost (potency 1.3,
duration 0.5) and aura_size_boost (potency 1.2, duration 0.5). -/
def archmage_def : JValue :=
  .obj [("name", .str "Arch-Mage"), ("category", .str "support"),
        ("cost", .num 190), ("unlock_cost", .num 250),
        ("auras", .arr [
          .obj [("range", .num 100), ("target_type", .str "TOWER"),
            ("effects", .obj [
              ("effect_potency_boost",
                .obj [("potency", .num 1.3), ("duration", .num 0.5)]),
              ("aura_size_boost",
                .obj [("potency", .num 1.2), ("duration", .num 0.5)])])]])]

/-- C7: applying the archmage_a3 operation on the path auras[0].range with
operation add and amount 40 to the archmage base definition yields a
document whose auras[0].range is 140 and in which every other field — the
aura's target_type, its effects object and all their sub-fields, and the
rest of the tower definition — is unchanged. -/
theorem archmage_aura_range_round_trip :
    ∃ q, modifyNested [.field "auras", .index 0, .field "range"] archmage_def (.add 40)
      = .ok (.obj [("name", .str "Arch-Mage"), ("category", .str "support"),
          ("cost", .num 190), ("unlock_cost", .num 250),
          ("auras", .arr [
            .obj [("range", .num q), ("target_type", .str "TOWER"),
              ("effects", .obj [
                ("effect_potency_boost",
                  .obj [("potency", .num 1.3), ("duration", .num 0.5)]),
                ("aura_size_boost",
                  .obj [("potency", .num 1.2), ("duration", .num 0.5)])])]])])
      ∧ q = 140 :=
  ⟨_, rfl, by norm_num⟩

/-! ## Upgrade path gating (findNextUpgrade from UpgradePanel.tsx) -/

structure Tower where
  id : String
  type_id : String
  path_a_tier : Nat
  path_b_tier : Nat
deriving DecidableEq, Repr

structure UpgradeDefinition where
  id : String
  name : String
  cost : ℚ
deriving DecidableEq, Repr

inductive UpgradePath where
  | a
  | b
deriving DecidableEq, Repr

def UpgradePath.key : UpgradePath → String
  | .a => "a"
  | .b => "b"

def lookupAssoc {α : Type} (k : String) : List (String × α) → Option α
  | [] => none
  | (k2, v) :: rest => if k2 == k then some v else lookupAssoc k rest

def currentTier (tower : Tower) : UpgradePath → Nat
  | .a => tower.path_a_tier
  | .b => tower.path_b_tier

/-- Upgrade IDs are formatted like path_a_1, path_b_2, and the panel only
ever addresses the one at the current tier plus one. -/
def nextUpgradeId (tower : Tower) (path : UpgradePath) : String :=
  "path_" ++ path.key ++ "_" ++ toString (currentTier tower path + 1)

/-- Embedded from the UpgradePanel component: findNextUpgrade reads the
current tier of the requested path, looks up the tower type in the upgrade
definitions, and returns the definition stored under the id
path_(path)_(currentTier + 1), or none. -/
def findNextUpgrade (upgradeDefinitions : List (String × List (String × UpgradeDefinition)))
    (tower : Tower) (path : UpgradePath) : Option UpgradeDefinition :=
  match lookupAssoc tower.type_id upgradeDefinitions with
  | none => none
  | some towerUpgrades => lookupAssoc (nextUpgradeId tower path) towerUpgrades

/-- Modelled from the spec: the backend serving the purchase request accepts
an upgrade purchase on a path only for the very next tier of that path
(tier N+1 is purchasable only after tier N, no skipping). -/
def purchaseAccepted (tower : Tower) (path : UpgradePath) (upgradeId : String) : Bool :=
  upgradeId == nextUpgradeId tower path

/-- C8: the only upgrade the panel offers on a path is the entry stored
under id path_(path)_(currentTier + 1); a purchase is accepted exactly for
that id; and in particular a purchase request for path_a_3 by a tower whose
path_a tier is 1 is rejected. -/
theorem upgrade_tier_gating
    (defs : List (String × List (String × UpgradeDefinition)))
    (tower : Tower) (path : UpgradePath) (u : UpgradeDefinition) (uid : String) :
    (findNextUpgrade defs tower path = some u →
      ∃ m, lookupAssoc tower.type_id defs = some m ∧
        lookupAssoc (nextUpgradeId tower path) m = some u) ∧
    (purchaseAccepted tower path uid = true ↔ uid = nextUpgradeId tower path) ∧
    (tower.path_a_tier = 1 → purchaseAccepted tower .a "path_a_3" = false) := by
  refine ⟨?_, ?_, ?_⟩
  · intro h
    unfold findNextUpgrade at h
    cases hl : lookupAssoc tower.type_id defs with
    | none => rw [hl] at h; exact absurd h (by simp)
    | some m => rw [hl] at h; exact ⟨m, rfl, h⟩
  · unfold purchaseAccepted
    exact beq_iff_eq
  · intro h1
    simp only [purchaseAccepted, nextUpgradeId, currentTier, UpgradePath.key, h1]
    decide

/-- Witness for C8 at a curse_weaver tower sitting at path_a tier 1 over a
two-entry upgrade map: the panel offer is the path_a_2 entry, and the
path_a_3 request is rejected. -/
theorem upgrade_tier_gating_witness :
    (∃ m, lookupAssoc "curse_weaver"
        [("curse_weaver",
          [("path_a_1", UpgradeDefinition.mk "curse_a1" "Lingering Misery" 150),
           ("path_a_2", UpgradeDefinition.mk "curse_a2" "Deepening Curse" 250)])]
        = some m ∧
      lookupAssoc (nextUpgradeId (Tower.mk "t1" "curse_weaver" 1 0) .a) m
        = some (UpgradeDefinition.mk "curse_a2" "Deepening Curse" 250)) ∧
    purchaseAccepted (Tower.mk "t1" "curse_weaver" 1 0) .a "path_a_3" = false := by
  have h := upgrade_tier_gating
    [("curse_weaver",
      [("path_a_1", UpgradeDefinition.mk "curse_a1" "Lingering Misery" 150),
       ("path_a_2", UpgradeDefinition.mk "curse_a2" "Deepening Curse" 250)])]
    (Tower.mk "t1" "curse_weaver" 1 0) .a
    (UpgradeDefinition.mk "curse_a2" "Deepening Curse" 250) "path_a_3"
  exact ⟨h.1 (by decide), h.2.2 rfl⟩

/-! ## Targeting: the sort_by_closest persona -/

/-- The tower AI persona table from the persona config JSON, mapping each
persona key to its priority sorting function name. -/
def personas : List (String × String) :=
  [("SOLDIER", "sort_by_closest"), ("EXECUTIONER", "sort_by_first"),
   ("SNIPER", "sort_by_strongest"), ("ASSASSIN", "sort_by_weakest"),
   ("CONTAGION", "sort_by_unaffected"), ("ARTILLERY", "sort_by_group_density"),
   ("ARMOR_PIERCER", "sort_by_highest_armor"), ("SHREDDER", "sort_by_lowest_armor")]

/-- A candidate enemy in range; the candidate list is given in enemy spawn
order. -/
structure EnemyCandidate where
  id : String
  dist : ℚ
deriving DecidableEq, Repr

/-- Stable insertion into a list sorted by ascending distance: the new,
later-spawned element goes after every strictly closer element and before
every element at the same or larger distance. -/
def insertByDist (x : EnemyCandidate) : List EnemyCandidate → List EnemyCandidate
  | [] => [x]
  | y :: ys => if y.dist < x.dist then y :: insertByDist x ys else x :: y :: ys

/-- Modelled from the spec: sort_by_closest is a stable sort of the
candidates by ascending distance, ties broken by spawn order. -/
def sortByClosest (l : List EnemyCandidate) : List EnemyCandidate :=
  l.foldr insertByDist []

/-- Modelled from the spec: selectTarget orders the in-range candidates by
the persona's sort key and selects the first element, or null when the
candidate list is empty. The targeting logic lives in the external backend,
absent from this repository. -/
def selectTarget (candidates : List EnemyCandidate) : Option EnemyCandidate :=
  (sortByClosest candidates).head?

lemma insertByDist_head (x : EnemyCandidate) (l : List EnemyCandidate) :
    (insertByDist x l).head? = some (match l.head? with
      | none => x
      | some y => if y.dist < x.dist then y else x) := by
  cases l with
  | nil => rfl
  | cons y ys => by_cases h : y.dist < x.dist <;> simp [insertByDist, h]

lemma selectTarget_cons (x : EnemyCandidate) (xs : List EnemyCandidate) :
    selectTarget (x :: xs) = some (match selectTarget xs with
      | none => x
      | some y => if y.dist < x.dist then y else x) := by
  unfold selectTarget sortByClosest
  rw [List.foldr_cons, insertByDist_head]

lemma selectTarget_eq_none (cs : List EnemyCandidate) :
    selectTarget cs = none ↔ cs = [] := by
  cases cs with
  | nil => simp [selectTarget, sortByClosest]
  | cons x xs =>
      rw [selectTarget_cons]
      simp

lemma selectTarget_first_min (cs : List EnemyCandidate) :
    ∀ t : EnemyCandidate, selectTarget cs = some t →
      ∃ pre post, cs = pre ++ t :: post ∧ (∀ c ∈ pre, t.dist < c.dist) ∧
        ∀ c ∈ cs, t.dist ≤ c.dist := by
  induction cs with
  | nil => intro t h; simp [selectTarget, sortByClosest] at h
  | cons x xs ih =>
      intro t h
      rw [selectTarget_cons] at h
      have h2 := Option.some.inj h
      cases hxs : selectTarget xs with
      | none =>
          have hnil : xs = [] := (selectTarget_eq_none xs).mp hxs
          rw [hxs] at h2
          simp only at h2
          subst h2
          subst hnil
          exact ⟨[], [], rfl, by simp, by simp⟩
      | some y =>
          rw [hxs] at h2
          simp only at h2
          obtain ⟨pre, post, hsplit, hpre, hmin⟩ := ih y hxs
          by_cases hlt : y.dist < x.dist
          · rw [if_pos hlt] at h2
            subst h2
            refine ⟨x :: pre, post, by simp [hsplit], ?_, ?_⟩
            · intro c hc
              rcases List.mem_cons.mp hc with hcx | hcp
              · rw [hcx]; exact hlt
              · exact hpre c hcp
            · intro c hc
              rcases List.mem_cons.mp hc with hcx | hcxs
              · rw [hcx]; exact le_of_lt hlt
              · exact hmin c hcxs
          · rw [if_neg hlt] at h2
            subst h2
            refine ⟨[], xs, rfl, by simp, ?_⟩
            intro c hc
            rcases List.mem_cons.mp hc with hcx | hcxs
            · rw [hcx]
            · exact le_trans (not_lt.mp hlt) (hmin c hcxs)

/-- C9: the SOLDIER persona maps to sort_by_closest; under it, selectTarget
over candidates at distances [120, 45, 200] returns the distance-45
candidate; selectTarget is null exactly on the empty candidate list; and in
general the selected candidate is a minimum-distance one, preceded in spawn
order only by strictly farther candidates (ties broken by spawn order via
the stable sort). -/
theorem sort_by_closest_selects_minimum :
    (lookupAssoc "SOLDIER" personas = some "sort_by_closest") ∧
    (selectTarget [⟨"e1", 120⟩, ⟨"e2", 45⟩, ⟨"e3", 200⟩] = some ⟨"e2", 45⟩) ∧
    (∀ cs : List EnemyCandidate, selectTarget cs = none ↔ cs = []) ∧
    (∀ (cs : List EnemyCandidate) (t : EnemyCandidate), selectTarget cs = some t →
      ∃ pre post, cs = pre ++ t :: post ∧ (∀ c ∈ pre, t.dist < c.dist) ∧
        ∀ c ∈ cs, t.dist ≤ c.dist) :=
  ⟨by decide, by decide, selectTarget_eq_none, selectTarget_first_min⟩

/-- Witness for C9: on the three concrete candidates at distances 120, 45
and 200 the theorem yields the distance-45 selection together with its
minimality decomposition. -/
theorem sort_by_closest_selects_minimum_witness :
    ∃ pre post,
      ([⟨"e1", 120⟩, ⟨"e2", 45⟩, ⟨"e3", 200⟩] : List EnemyCandidate)
        = pre ++ (⟨"e2", 45⟩ : EnemyCandidate) :: post ∧
      (∀ c ∈ pre, (45 : ℚ) < c.dist) ∧
      ∀ c ∈ ([⟨"e1", 120⟩, ⟨"e2", 45⟩, ⟨"e3", 200⟩] : List EnemyCandidate),
        (45 : ℚ) ≤ c.dist :=
  sort_by_closest_selects_minimum.2.2.2
    [⟨"e1", 120⟩, ⟨"e2", 45⟩, ⟨"e3", 200⟩] ⟨"e2", 45⟩ (by decide)

/-! ## Client game store (embedded from gameStore.ts) -/

inductive AppScreen where
  | MainMenu
  | LevelSelect
  | Workshop
  | InGame
deriving DecidableEq, Repr

/-- The store state of gameStore.ts; server payloads are opaque here. -/
structure GameStoreState where
  activeScreen : AppScreen
  initialState : Option String
  gameState : Option String
  entities : Option String
  isConnected : Bool
  selectedTowerToBuild : Option String
  selectedEntityId : Option String
deriving DecidableEq, Repr

inductive StoreAction where
  | setActiveScreen (screen : AppScreen)
  | setConnectionStatus (status : Bool)
  | setInitialState (data : String)
  | setGameTickState (gameState entities : String)
  | selectTowerToBuild (towerId : Option String)
  | setSelectedEntityId (entityId : Option String)
  | clearSelections
deriving DecidableEq, Repr

/-- The initial values of the store: main menu, nothing loaded, nothing
selected. -/
def initialStore : GameStoreState :=
  { activeScreen := .MainMenu, initialState := none, gameState := none,
    entities := none, isConnected := false, selectedTowerToBuild := none,
    selectedEntityId := none }

/-- Embedded from gameStore.ts: each store action as a state transformer.
selectTowerToBuild stores the tower id and clears selectedEntityId;
setSelectedEntityId toggles an already-selected id back to null and
otherwise stores the new id while clearing selectedTowerToBuild. -/
def dispatch (state : GameStoreState) : StoreAction → GameStoreState
  | .setActiveScreen screen => { state with activeScreen := screen }
  | .setConnectionStatus status => { state with isConnected := status }
  | .setInitialState data => { state with initialState := some data }
  | .setGameTickState g e => { state with gameState := some g, entities := some e }
  | .selectTowerToBuild towerId =>
      { state with selectedTowerToBuild := towerId, selectedEntityId := none }
  | .setSelectedEntityId entityId =>
      if state.selectedEntityId = entityId then
        { state with selectedEntityId := none }
      else
        { state with selectedEntityId := entityId, selectedTowerToBuild := none }
  | .clearSelections =>
      { state with selectedTowerToBuild := none, selectedEntityId := none }

/-- The mutual-exclusion invariant: a tower to build and a selected map
entity are never both set. -/
def SelectionInvariant (s : GameStoreState) : Prop :=
  s.selectedTowerToBuild = none ∨ s.selectedEntityId = none

/-- C10: selectedTowerToBuild and selectedEntityId are never both non-null:
both start as null, selectTowerToBuild always clears selectedEntityId,
setSelectedEntityId either toggles the same id back to null or sets the new
id while clearing selectedTowerToBuild, every store action preserves the
exclusion, and hence it holds after any action sequence from the initial
store. -/
theorem selection_mutual_exclusion :
    SelectionInvariant initialStore ∧
    (∀ (s : GameStoreState) (a : StoreAction),
      SelectionInvariant s → SelectionInvariant (dispatch s a)) ∧
    (∀ acts : List StoreAction,
      SelectionInvariant (acts.foldl dispatch initialStore)) ∧
    (∀ (s : GameStoreState) (t : Option String),
      (dispatch s (.selectTowerToBuild t)).selectedEntityId = none) ∧
    (∀ (s : GameStoreState) (e : Option String),
      (s.selectedEntityId = e →
        (dispatch s (.setSelectedEntityId e)).selectedEntityId = none ∧
        (dispatch s (.setSelectedEntityId e)).selectedTowerToBuild
          = s.selectedTowerToBuild) ∧
      (s.selectedEntityId ≠ e →
        (dispatch s (.setSelectedEntityId e)).selectedEntityId = e ∧
        (dispatch s (.setSelectedEntityId e)).selectedTowerToBuild = none)) := by
  have hpres : ∀ (s : GameStoreState) (a : StoreAction),
      SelectionInvariant s → SelectionInvariant (dispatch s a) := by
    intro s a h
    cases a with
    | setActiveScreen screen =>
        rcases h with h | h
        · exact Or.inl h
        · exact Or.inr h
    | setConnectionStatus status =>
        rcases h with h | h
        · exact Or.inl h
        · exact Or.inr h
    | setInitialState data =>
        rcases h with h | h
        · exact Or.inl h
        · exact Or.inr h
    | setGameTickState g e =>
        rcases h with h | h
        · exact Or.inl h
        · exact Or.inr h
    | selectTowerToBuild towerId => exact Or.inr rfl
    | setSelectedEntityId entityId =>
        by_cases heq : s.selectedEntityId = entityId
        · simp only [dispatch, heq, if_true]
          exact Or.inr rfl
        · simp only [dispatch, heq, if_false]
          exact Or.inl rfl
    | clearSelections => exact Or.inl rfl
  refine ⟨Or.inl rfl, hpres, ?_, fun s t => rfl, ?_⟩
  · intro acts
    have hgen : ∀ (l : List StoreAction) (s : GameStoreState),
        SelectionInvariant s → SelectionInvariant (l.foldl dispatch s) := by
      intro l
      induction l with
      | nil => intro s h; exact h
      | cons a rest ih => intro s h; exact ih (dispatch s a) (hpres s a h)
    exact hgen acts initialStore (Or.inl rfl)
  · intro s e
    constructor
    · intro heq
      simp [dispatch, heq]
    · intro hne
      simp [dispatch, hne]

/-- Witness for C10: selecting an entity right after starting, then picking
a tower to build, keeps the two selections mutually exclusive. -/
theorem selection_mutual_exclusion_witness :
    SelectionInvariant
      (dispatch initialStore (.setSelectedEntityId (some "enemy-7"))) ∧
    SelectionInvariant
      ([StoreAction.setSelectedEntityId (some "enemy-7"),
        StoreAction.selectTowerToBuild (some "cannon")].foldl dispatch initialStore) :=
  ⟨selection_mutual_exclusion.2.1 initialStore (.setSelectedEntityId (some "enemy-7"))
      (Or.inl rfl),
   selection_mutual_exclusion.2.2.1
      [StoreAction.setSelectedEntityId (some "enemy-7"),
       StoreAction.selectTowerToBuild (some "cannon")]⟩

end ChaosDefense
